import Mathlib

/-!
Verification development for the Marketing Campaign Analyzer dashboard
(src/app.py).  The data-transformation pipeline of the source is embedded
shallowly:

* a `DataFrame` is a list of named string columns (the state of `df` right
  after `pd.read_csv`);
* the auto-fix logic (alias renaming, random `Audience` synthesis) and the
  required-column check are modelled at that level;
* after the check, rows are extracted and typed: numbers become `ℚ` (the
  source computes with float64; all analysed inputs are exact small
  decimals, for which ℚ is the faithful idealization), dates are parsed with
  day-first preference and the weekday name is derived;
* the four views and the three scalar KPIs are group-by reductions defined
  exactly as the pandas expressions in the source;
* `pandas.sort_values(ascending=False)` with its default
  `kind='quicksort'` is modelled by pandas' `nargsort` (reverse the keys,
  ascending argsort, reverse the indexer) on top of numpy's introsort
  (`npy_sort/quicksort.c.src`): median-of-three quicksort partitioning for
  segments of more than 16 elements, insertion sort below.

String comparison in pandas group-key sorting is Python's: lexicographic by
code point.  Lean's own `String.lt` is definitionally equivalent but its
iterator-based decision procedure does not reduce in the kernel, so the
order is modelled explicitly through the list of code points (`strKey`).
-/

namespace MCA

/-! ### Strings ordered by code points, as Python compares them -/

/-- The list of code points of a string; Python compares strings
lexicographically on exactly this data. -/
def strKey (s : String) : List Nat := s.data.map Char.toNat

/-- Python's `a <= b` on strings. -/
def strLe (a b : String) : Prop := strKey a ≤ strKey b

/-- Python's `a < b` on strings. -/
def strLt (a b : String) : Prop := strKey a < strKey b

instance : DecidableRel strLe := fun a b => by unfold strLe; infer_instance

instance : DecidableRel strLt := fun a b => by unfold strLt; infer_instance

/-! ### The DataFrame as parsed from the uploaded CSV -/

/-- One column of the uploaded CSV: a label and the cell texts. -/
structure Column where
  name : String
  values : List String
deriving DecidableEq, Repr

/-- The tabular dataset `df`, a list of named columns. -/
abbrev DataFrame := List Column

/-- Membership test for a column label, `n in df.columns`. -/
def hasCol (df : DataFrame) (n : String) : Bool := df.any (fun c => c.name == n)

/-- `len(df)`: the number of rows (all columns of a parsed CSV have the
same length, so the first column's length is taken). -/
def nRows (df : DataFrame) : Nat :=
  match df with
  | [] => 0
  | c :: _ => c.values.length

/-- The fixed alias table of the auto-fix logic (`rename_map` in the
source). -/
def rename_map : List (String × String) :=
  [("Day", "Date"), ("Cost", "Spend"), ("Total conv. value", "Revenue")]

/-- `df.rename(columns=rename_map)` applied to one label: an exact match is
replaced, any other label passes through. -/
def renameLabel (n : String) : String := (rename_map.lookup n).getD n

/-- `df = df.rename(columns=rename_map)`: labels are renamed, values are
untouched. -/
def applyRename (df : DataFrame) : DataFrame :=
  df.map (fun c => { c with name := renameLabel c.name })

/-- The fixed label set used by the `Audience` auto-fix
(`audiences` in the source). -/
def audiences : List String := ["Gen Z", "Millennials", "Gen X", "Boomers", "All"]

/-- The `Audience` auto-fix: if no `Audience` column exists, append one with
`np.random.choice(audiences, size=len(df))`.  The process-global random
draws are modelled by the parameter `pick`, giving the label index drawn
for each row. -/
def ensureAudience (pick : Nat → Fin 5) (df : DataFrame) : DataFrame :=
  if hasCol df "Audience" then df
  else df ++ [⟨"Audience", (List.range (nRows df)).map (fun i => audiences.get ⟨(pick i).val, (pick i).isLt⟩)⟩]

/-- `req_cols` in the source. -/
def req_cols : List String := ["Campaign", "Date", "Spend", "Revenue", "Audience"]

/-- `missing_cols = [c for c in req_cols if c not in df.columns]`. -/
def missing_cols (df : DataFrame) : List String :=
  req_cols.filter (fun c => !(hasCol df c))

/-- The auto-fix block of the source: alias renaming followed by `Audience`
synthesis. -/
def normalize (pick : Nat → Fin 5) (df : DataFrame) : DataFrame :=
  ensureAudience pick (applyRename df)

/-! ### Cell parsing -/

/-- Decimal digit value of a character, if any. -/
def digitVal (c : Char) : Option Nat :=
  if 48 ≤ c.toNat ∧ c.toNat ≤ 57 then some (c.toNat - 48) else none

/-- Parses a nonempty all-digit character list as a natural number. -/
def natFromDigits (cs : List Char) : Option Nat :=
  cs.foldl (fun acc c => acc.bind (fun n => (digitVal c).map (fun d => 10 * n + d)))
    (if cs.isEmpty then none else some 0)

/-- Splits a character list at a separator character. -/
def splitChars (sep : Char) : List Char → List (List Char)
  | [] => [[]]
  | c :: cs =>
    match splitChars sep cs with
    | [] => if c = sep then [[], []] else [[c]]
    | g :: gs => if c = sep then [] :: g :: gs else (c :: g) :: gs

/-- Numeric cell inference of `pd.read_csv`, restricted to the nonnegative
decimal literals the analysed inputs use. -/
def parseNum (s : String) : Option ℚ :=
  match (splitChars '.' s.data).map natFromDigits with
  | [some w] => some (w : ℚ)
  | [some w, some f] =>
    some ((w : ℚ) + (f : ℚ) / ((10 : ℚ) ^ ((splitChars '.' s.data).getD 1 []).length))
  | _ => none

/-- A parsed calendar date. -/
structure Date where
  year : Nat
  month : Nat
  dayOfMonth : Nat
deriving DecidableEq, Repr

/-- `pd.to_datetime(df['Date'], dayfirst=True)` on one cell, restricted to
the slash-separated numeric dates the analysed inputs use: the first field
is preferred as the day (day-before-month) and is taken as the month only
when the second field cannot be a month. -/
def parseDate (s : String) : Option Date :=
  match (splitChars '/' s.data).map natFromDigits with
  | [some a, some b, some y] =>
    if 1 ≤ b ∧ b ≤ 12 ∧ 1 ≤ a ∧ a ≤ 31 then some ⟨y, b, a⟩
    else if 1 ≤ a ∧ a ≤ 12 ∧ 1 ≤ b ∧ b ≤ 31 then some ⟨y, a, b⟩
    else none
  | _ => none

/-- English weekday names indexed by Zeller's congruence (0 = Saturday). -/
def zellerNames : List String :=
  ["Saturday", "Sunday", "Monday", "Tuesday", "Wednesday", "Thursday", "Friday"]

/-- `Series.dt.day_name()`: the English weekday name of a date, computed by
Zeller's congruence. -/
def weekdayName (d : Date) : String :=
  let y := if d.month ≤ 2 then d.year - 1 else d.year
  let m := if d.month ≤ 2 then d.month + 12 else d.month
  let K := y % 100
  let J := y / 100
  zellerNames.getD ((d.dayOfMonth + (13 * (m + 1)) / 5 + K + K / 4 + J / 4 + 5 * J) % 7) ""

/-! ### Typed rows -/

/-- One row right after the column check: the five required columns, with
`Spend` and `Revenue` already inferred as numbers by `read_csv`. -/
structure RawRow where
  campaign : String
  dateStr : String
  spend : ℚ
  revenue : ℚ
  audience : String
deriving DecidableEq, Repr

/-- One row after the feature-engineering block: parsed `Date`, derived
`Day`, derived `ROAS`. -/
structure DRow where
  campaign : String
  date : Date
  day : String
  spend : ℚ
  revenue : ℚ
  roas : ℚ
  audience : String
deriving DecidableEq, Repr

/-- The feature-engineering block on one row:
`df['Date'] = pd.to_datetime(df['Date'], dayfirst=True)`,
`df['Day'] = df['Date'].dt.day_name()`,
`df['ROAS'] = df['Revenue'] / df['Spend']`.
Row-level ROAS is unguarded in the source (float ∞ when `Spend = 0`); in ℚ
the expression `r.revenue / r.spend` takes Lean's `q / 0 = 0` convention
instead, so theorems that depend on ROAS values carry a `Spend ≠ 0`
hypothesis. -/
def deriveRow (r : RawRow) : Option DRow :=
  (parseDate r.dateStr).map (fun d =>
    { campaign := r.campaign, date := d, day := weekdayName d,
      spend := r.spend, revenue := r.revenue,
      roas := r.revenue / r.spend, audience := r.audience })

/-- The feature-engineering block on the whole dataset; a parse failure on
any row fails the dataset (surfaced as the generic processing error). -/
def deriveAll (rows : List RawRow) : Option (List DRow) := rows.mapM deriveRow

/-- The values of the first column with the given label, `df[n]`. -/
def colVals (df : DataFrame) (n : String) : Option (List String) :=
  (df.find? (fun c => c.name == n)).map (·.values)

/-- Zips the five required columns into rows (the columns of a parsed CSV
all have the same length). -/
def buildRows : List String → List String → List ℚ → List ℚ → List String → List RawRow
  | c :: cs, d :: ds, s :: ss, r :: rs, a :: more => ⟨c, d, s, r, a⟩ :: buildRows cs ds ss rs more
  | _, _, _, _, _ => []

/-- Extraction of typed rows from a dataset that passed the column check;
`none` models a numeric-inference failure (generic processing error). -/
def toRows (df : DataFrame) : Option (List RawRow) := do
  let cs ← colVals df "Campaign"
  let ds ← colVals df "Date"
  let ss0 ← colVals df "Spend"
  let rs0 ← colVals df "Revenue"
  let more ← colVals df "Audience"
  let ss ← ss0.mapM parseNum
  let rs ← rs0.mapM parseNum
  pure (buildRows cs ds ss rs more)

/-! ### KPIs and the four views -/

/-- `total_spend = df['Spend'].sum()`. -/
def total_spend (rows : List DRow) : ℚ := (rows.map (·.spend)).sum

/-- `total_rev = df['Revenue'].sum()`. -/
def total_rev (rows : List DRow) : ℚ := (rows.map (·.revenue)).sum

/-- `total_roas = total_rev / total_spend if total_spend > 0 else 0`:
the dataset-level ROAS is zero-guarded, unlike the row-level one. -/
def total_roas (rows : List DRow) : ℚ :=
  if total_spend rows > 0 then total_rev rows / total_spend rows else 0

/-- The distinct group keys in the ascending order `pandas.groupby` (with
its default `sort=True`) emits them. -/
def sortedKeys (ks : List String) : List String := List.insertionSort strLe ks.dedup

/-- Audience view:
`aud_df = df.groupby('Audience')[['Spend','Revenue']].sum().reset_index()`
followed by `aud_df['ROAS'] = aud_df['Revenue'] / aud_df['Spend']`. -/
def aud_df (rows : List DRow) : List (String × ℚ × ℚ × ℚ) :=
  (sortedKeys (rows.map (·.audience))).map (fun a =>
    let g := rows.filter (fun r => r.audience == a)
    ((g.map (·.spend)).sum, (g.map (·.revenue)).sum) |>
      (fun p => (a, p.1, p.2, p.2 / p.1)))

/-- Lexicographic order on `(Day, Campaign)` group keys, as
`pandas.groupby` sorts a two-level key. -/
def dayCampLe (p q : String × String) : Prop :=
  strLt p.1 q.1 ∨ (strKey p.1 = strKey q.1 ∧ strLe p.2 q.2)

instance : DecidableRel dayCampLe := fun p q => by unfold dayCampLe; infer_instance

/-- Heatmap view:
`heat_data = df.groupby(['Day','Campaign'])['Revenue'].sum().reset_index()`:
one output triple per distinct `(Day, Campaign)` pair, keys in ascending
lexicographic order. -/
def heat_data (rows : List DRow) : List (String × String × ℚ) :=
  (List.insertionSort dayCampLe (rows.map (fun r => (r.day, r.campaign))).dedup).map
    (fun k => (k.1, k.2,
      ((rows.filter (fun r => r.day == k.1 && r.campaign == k.2)).map (·.revenue)).sum))

/-- `days_order` in the source: the canonical weekday order, handed to the
chart as its `category_orders` directive. -/
def days_order : List String :=
  ["Monday", "Tuesday", "Wednesday", "Thursday", "Friday", "Saturday", "Sunday"]

/-- Leaderboard grouping:
`ranking = df.groupby('Campaign')[['Spend','Revenue','ROAS']].mean().reset_index()`:
one row per campaign in ascending key order, holding the arithmetic means
of `Spend`, `Revenue` and of the per-row `ROAS` column. -/
def ranking_grouped (rows : List DRow) : List (String × ℚ × ℚ × ℚ) :=
  (sortedKeys (rows.map (·.campaign))).map (fun c =>
    let g := rows.filter (fun r => r.campaign == c)
    (c, (g.map (·.spend)).sum / (g.length : ℚ),
        (g.map (·.revenue)).sum / (g.length : ℚ),
        (g.map (·.roas)).sum / (g.length : ℚ)))

/-! ### pandas `sort_values(by='ROAS', ascending=False)`

pandas delegates to `nargsort`: for a descending sort it reverses the key
array, argsorts it ascending with the requested kind, and reverses the
resulting indexer.  The default kind is numpy's `'quicksort'` (introsort):
segments of more than 16 elements are partitioned around a median-of-three
pivot; smaller segments get a stable ascending insertion sort; past a
recursion-depth budget of twice the most significant bit of n, numpy
switches to heapsort.  The heapsort fallback is unreachable for every
input analysed in this file (it needs recursion deeper than 2·msb(n)); it
is modelled by the same stable insertion sort, and the depth budget is
threaded per branch where the C code shares one counter across the whole
sort — neither difference is reachable in any statement proved below. -/

/-- Strict `<` comparison of keys, `TYPE_LT` in numpy's quicksort. -/
def npyLt (x y : ℚ) : Bool := decide (x < y)

/-- Key comparison of two positions for the ascending insertion sort. -/
def ascLe (v : Nat → ℚ) (i j : Nat) : Prop := v i ≤ v j

instance (v : Nat → ℚ) : DecidableRel (ascLe v) := fun i j => by unfold ascLe; infer_instance

instance (v : Nat → ℚ) : IsTotal Nat (ascLe v) := ⟨fun i j => le_total (v i) (v j)⟩

instance (v : Nat → ℚ) : IsTrans Nat (ascLe v) := ⟨fun _ _ _ h h' => le_trans h h'⟩

/-- The stable ascending insertion sort numpy applies to segments of at
most 16 elements, acting on positions `t` with key lookup `v`. -/
def insSortIdx (v : Nat → ℚ) (t : List Nat) : List Nat :=
  List.insertionSort (ascLe v) t

/-- List read with default, `tosort[i]`. -/
def lget (t : List Nat) (i : Nat) : Nat := t.getD i 0

/-- Exchange of two positions, `INTP_SWAP`. -/
def lswap (t : List Nat) (i j : Nat) : List Nat :=
  (t.set i (lget t j)).set j (lget t i)

/-- `do ++pi; while (v[*pi] < vp)`. -/
def scanUp (v : Nat → ℚ) (t : List Nat) (vp : ℚ) : Nat → Nat → Nat
  | pi, 0 => pi + 1
  | pi, fuel + 1 =>
    let pi' := pi + 1
    if npyLt (v (lget t pi')) vp then scanUp v t vp pi' fuel else pi'

/-- `do --pj; while (vp < v[*pj])`. -/
def scanDown (v : Nat → ℚ) (t : List Nat) (vp : ℚ) : Nat → Nat → Nat
  | pj, 0 => pj - 1
  | pj, fuel + 1 =>
    let pj' := pj - 1
    if npyLt vp (v (lget t pj')) then scanDown v t vp pj' fuel else pj'

/-- The partition exchange loop of numpy's quicksort; returns the permuted
positions and the final `pi`. -/
def partLoop (v : Nat → ℚ) (vp : ℚ) : List Nat → Nat → Nat → Nat → List Nat × Nat
  | t, pi, _, 0 => (t, pi)
  | t, pi, pj, fuel + 1 =>
    let pi' := scanUp v t vp pi t.length
    let pj' := scanDown v t vp pj t.length
    if pj' ≤ pi' then (t, pi')
    else partLoop v vp (lswap t pi' pj') pi' pj' fuel

/-- `npy_get_msb`: position of the most significant bit. -/
def msbFuel : Nat → Nat → Nat
  | _, 0 => 0
  | fuel + 1, n => if n ≤ 1 then 0 else msbFuel fuel (n / 2) + 1
  | 0, _ => 0

/-- numpy's `aquicksort` on a segment of positions: insertion sort for at
most 16 elements, otherwise a median-of-three partition and recursion on
both sides. -/
def aquicksort (v : Nat → ℚ) : List Nat → Nat → Nat → List Nat
  | t, _, 0 => insSortIdx v t
  | t, depth, fuel + 1 =>
    let n := t.length
    if n ≤ 16 then insSortIdx v t
    else if depth = 0 then insSortIdx v t
    else
      let pm := (n - 1) / 2
      let t1 := if npyLt (v (lget t pm)) (v (lget t 0)) then lswap t pm 0 else t
      let t2 := if npyLt (v (lget t1 (n - 1))) (v (lget t1 pm)) then lswap t1 (n - 1) pm else t1
      let t3 := if npyLt (v (lget t2 pm)) (v (lget t2 0)) then lswap t2 pm 0 else t2
      let vp := v (lget t3 pm)
      let t4 := lswap t3 pm (n - 2)
      let pr := partLoop v vp t4 0 (n - 2) n
      let t6 := lswap pr.1 pr.2 (n - 2)
      aquicksort v (t6.take pr.2) (depth - 1) fuel
        ++ [lget t6 pr.2] ++ aquicksort v (t6.drop (pr.2 + 1)) (depth - 1) fuel

/-- pandas `nargsort(keys, kind='quicksort', ascending=False)`: reverse the
keys, ascending argsort, then reverse the indexer. -/
def nargsortDesc (keys : List ℚ) : List Nat :=
  let n := keys.length
  let rev := keys.reverse
  let revIdx := (List.range n).reverse
  let asc := aquicksort (fun i => rev.getD i 0) (List.range n) (2 * msbFuel n n) (n + 1)
  (asc.map (fun p => revIdx.getD p 0)).reverse

/-- `ranking = ranking.sort_values(by='ROAS', ascending=False)`: the
grouped table reordered by the descending argsort of its ROAS column. -/
def ranking (rows : List DRow) : List (String × ℚ × ℚ × ℚ) :=
  let tbl := ranking_grouped rows
  (nargsortDesc (tbl.map (fun e => e.2.2.2))).map (fun i => tbl.getD i ("", 0, 0, 0))

/-- Modelled from the spec's words for the leaderboard ordering claim: the
relation "ranked no lower", i.e. strictly larger key, or equal key and not
later in the pre-sort table.  A list sorted by this relation is exactly a
descending, tie-stable ordering. -/
def descStable (w : Nat → ℚ) (i j : Nat) : Prop := w j < w i ∨ (w i = w j ∧ i ≤ j)

instance (w : Nat → ℚ) : DecidableRel (descStable w) := fun i j => by
  unfold descStable; infer_instance

instance (w : Nat → ℚ) : IsTotal Nat (descStable w) := ⟨fun i j => by
  unfold descStable
  rcases lt_trichotomy (w i) (w j) with h | h | h
  · exact Or.inr (Or.inl h)
  · rcases Nat.le_total i j with h2 | h2
    · exact Or.inl (Or.inr ⟨h, h2⟩)
    · exact Or.inr (Or.inr ⟨h.symm, h2⟩)
  · exact Or.inl (Or.inl h)⟩

instance (w : Nat → ℚ) : IsTrans Nat (descStable w) := ⟨fun i j k hij hjk => by
  unfold descStable at *
  rcases hij with h | ⟨he, h2⟩
  · rcases hjk with h' | ⟨he', h2'⟩
    · exact Or.inl (h'.trans h)
    · exact Or.inl (he' ▸ h)
  · rcases hjk with h' | ⟨he', h2'⟩
    · exact Or.inl (he ▸ h')
    · exact Or.inr ⟨he.trans he', h2.trans h2'⟩⟩

instance (w : Nat → ℚ) : IsAntisymm Nat (descStable w) := ⟨fun i j hij hji => by
  unfold descStable at *
  rcases hij with h | ⟨he, h2⟩
  · rcases hji with h' | ⟨he', h2'⟩
    · exact absurd h' (lt_asymm h)
    · exact absurd h (he' ▸ lt_irrefl _)
  · rcases hji with h' | ⟨he', h2'⟩
    · exact absurd h' (he ▸ lt_irrefl _)
    · exact Nat.le_antisymm h2 h2'⟩

/-- Modelled from the spec's words for the leaderboard ordering claim: the
stable descending argsort — positions ordered by strictly descending key,
ties kept in their pre-sort order. -/
def argsortSpecDesc (keys : List ℚ) : List Nat :=
  List.insertionSort (descStable (fun i => keys.getD i 0)) (List.range keys.length)

/-! ### The pipeline -/

/-- The two error kinds of the app: the explicit missing-columns message,
and the catch-all processing error. -/
inductive AppError where
  | missingCols (cols : List String)
  | processing (msg : String)
deriving DecidableEq, Repr

/-- Everything the core hands the presenter. -/
structure Output where
  total_spend : ℚ
  total_rev : ℚ
  total_roas : ℚ
  scatter : List DRow
  aud_df : List (String × ℚ × ℚ × ℚ)
  heat_data : List (String × String × ℚ)
  days_order : List String
  ranking : List (String × ℚ × ℚ × ℚ)
deriving DecidableEq, Repr

/-- Everything the presenter receives on a successful run: the three KPIs,
the raw per-row scatter projection, and the three aggregate views. -/
def mkOutput (rows : List DRow) : Output :=
  { total_spend := total_spend rows, total_rev := total_rev rows,
    total_roas := total_roas rows, scatter := rows,
    aud_df := aud_df rows, heat_data := heat_data rows,
    days_order := days_order, ranking := ranking rows }

/-- The pipeline from the column check on: halts with the missing-columns
error when the check fails, otherwise runs feature engineering, KPIs and
the four views. -/
def processChecked (df : DataFrame) : Except AppError Output :=
  if (missing_cols df).isEmpty then
    match toRows df with
    | none => .error (.processing "malformed numeric data")
    | some raws =>
      match deriveAll raws with
      | none => .error (.processing "unparseable dates")
      | some rows => .ok (mkOutput rows)
  else .error (.missingCols (missing_cols df))

/-- The full per-upload pipeline of the source: auto-fix (alias renaming
and `Audience` synthesis), then the checked pipeline. -/
def process (pick : Nat → Fin 5) (df0 : DataFrame) : Except AppError Output :=
  processChecked (normalize pick df0)

deriving instance DecidableEq for Except

instance : IsTotal String strLe := ⟨fun a b => le_total (strKey a) (strKey b)⟩

instance : IsTrans String strLe := ⟨fun _ _ _ h h' => le_trans h h'⟩

instance : IsTotal (String × String) dayCampLe := ⟨fun p q => by
  unfold dayCampLe strLt strLe
  rcases lt_trichotomy (strKey p.1) (strKey q.1) with h | h | h
  · exact Or.inl (Or.inl h)
  · rcases le_total (strKey p.2) (strKey q.2) with h2 | h2
    · exact Or.inl (Or.inr ⟨h, h2⟩)
    · exact Or.inr (Or.inr ⟨h.symm, h2⟩)
  · exact Or.inr (Or.inl h)⟩

instance : IsTrans (String × String) dayCampLe := ⟨fun p q r hpq hqr => by
  unfold dayCampLe strLt strLe at *
  rcases hpq with h | ⟨he, h2⟩
  · rcases hqr with h' | ⟨he', h2'⟩
    · exact Or.inl (h.trans h')
    · exact Or.inl (he' ▸ h)
  · rcases hqr with h' | ⟨he', h2'⟩
    · exact Or.inl (he ▸ h')
    · exact Or.inr ⟨he.trans he', h2.trans h2'⟩⟩

/-! ### Two-run agreement relations for the noninterference claim -/

/-- Two raw rows that agree on everything but the `Audience` value. -/
def agreeRaw (a b : RawRow) : Prop :=
  a.campaign = b.campaign ∧ a.dateStr = b.dateStr ∧ a.spend = b.spend ∧ a.revenue = b.revenue

/-- Two derived rows that agree on everything but the `Audience` value. -/
def agreeD (x y : DRow) : Prop :=
  x.campaign = y.campaign ∧ x.date = y.date ∧ x.day = y.day ∧
    x.spend = y.spend ∧ x.revenue = y.revenue ∧ x.roas = y.roas

/-- The audience-independent part of what the presenter receives: the three
scalar KPIs, the per-row ROAS and Day values, the heatmap aggregate and the
leaderboard table. -/
def nonAudienceView (o : Output) : ℚ × ℚ × ℚ × List (ℚ × String) ×
    List (String × String × ℚ) × List (String × ℚ × ℚ × ℚ) :=
  (o.total_spend, o.total_rev, o.total_roas,
    o.scatter.map (fun r => (r.roas, r.day)), o.heat_data, o.ranking)

/-! ### Concrete inputs used by the witnesses and counterexamples -/

/-- A fixed choice of random draws (every row gets label index 0). -/
def pick0 : Nat → Fin 5 := fun _ => 0

/-- Another fixed choice of random draws (every row gets label index 3). -/
def pick3 : Nat → Fin 5 := fun _ => 3

/-- An upload whose only missing required column, after renaming and
synthesis, is `Revenue` (`Day` and `Cost` exercise the alias table,
`Audience` is synthesized). -/
def c1df : DataFrame :=
  [⟨"Campaign", ["X"]⟩, ⟨"Day", ["01/02/2025"]⟩, ⟨"Cost", ["100"]⟩]

/-- The end-to-end example upload of the spec: one row, all five required
columns present. -/
def c5df : DataFrame :=
  [⟨"Campaign", ["X"]⟩, ⟨"Date", ["01/02/2025"]⟩, ⟨"Spend", ["100"]⟩,
   ⟨"Revenue", ["200"]⟩, ⟨"Audience", ["Gen Z"]⟩]

/-- A complete upload without an `Audience` column (it gets synthesized). -/
def c9df : DataFrame :=
  [⟨"Campaign", ["X"]⟩, ⟨"Date", ["01/02/2025"]⟩, ⟨"Spend", ["100"]⟩,
   ⟨"Revenue", ["200"]⟩]

/-- The leaderboard example rows of the spec (dates added, as the pipeline
derives rows only after date parsing). -/
def c2raws : List RawRow :=
  [⟨"A", "01/02/2025", 100, 300, "All"⟩,
   ⟨"B", "01/02/2025", 200, 200, "All"⟩,
   ⟨"A", "01/02/2025", 50, 100, "All"⟩]

/-- Seventeen campaigns with identical per-row ROAS: one more campaign than
numpy's insertion-sort threshold, so `sort_values` takes the quicksort
partition path. -/
def c3raws : List RawRow :=
  [⟨"C01", "01/02/2025", 100, 200, "All"⟩, ⟨"C02", "01/02/2025", 100, 200, "All"⟩,
   ⟨"C03", "01/02/2025", 100, 200, "All"⟩, ⟨"C04", "01/02/2025", 100, 200, "All"⟩,
   ⟨"C05", "01/02/2025", 100, 200, "All"⟩, ⟨"C06", "01/02/2025", 100, 200, "All"⟩,
   ⟨"C07", "01/02/2025", 100, 200, "All"⟩, ⟨"C08", "01/02/2025", 100, 200, "All"⟩,
   ⟨"C09", "01/02/2025", 100, 200, "All"⟩, ⟨"C10", "01/02/2025", 100, 200, "All"⟩,
   ⟨"C11", "01/02/2025", 100, 200, "All"⟩, ⟨"C12", "01/02/2025", 100, 200, "All"⟩,
   ⟨"C13", "01/02/2025", 100, 200, "All"⟩, ⟨"C14", "01/02/2025", 100, 200, "All"⟩,
   ⟨"C15", "01/02/2025", 100, 200, "All"⟩, ⟨"C16", "01/02/2025", 100, 200, "All"⟩,
   ⟨"C17", "01/02/2025", 100, 200, "All"⟩]

/-- Two rows of one campaign on a Friday (7 Feb 2025) and a Monday
(3 Feb 2025): alphabetical day order differs from canonical weekday
order. -/
def c8raws : List RawRow :=
  [⟨"CampA", "07/02/2025", 1, 10, "All"⟩, ⟨"CampA", "03/02/2025", 1, 20, "All"⟩]

/-- A derived row used to instantiate dataset-level statements. -/
def d1 : DRow :=
  ⟨"X", ⟨2025, 2, 1⟩, "Saturday", 100, 200, 2, "Gen Z"⟩



/-! ## Theorems -/

theorem renameLabel_eq (n : String) :
    renameLabel n = if n = "Day" then "Date" else if n = "Cost" then "Spend"
      else if n = "Total conv. value" then "Revenue" else n := by
  by_cases h1 : n = "Day"
  · simp [renameLabel, rename_map, List.lookup, h1]
  · by_cases h2 : n = "Cost"
    · simp [renameLabel, rename_map, List.lookup, h1, h2]
    · by_cases h3 : n = "Total conv. value"
      · simp [renameLabel, rename_map, List.lookup, h1, h2, h3]
      · simp [renameLabel, rename_map, List.lookup,
          beq_eq_false_iff_ne.mpr h1, beq_eq_false_iff_ne.mpr h2, beq_eq_false_iff_ne.mpr h3, h1, h2, h3]

theorem hasCol_ensureAudience (pick : Nat → Fin 5) (df : DataFrame) :
    hasCol (ensureAudience pick df) "Audience" = true := by
  unfold ensureAudience
  by_cases h : hasCol df "Audience" = true
  · rw [if_pos h]; exact h
  · rw [if_neg h]
    rw [hasCol, List.any_append]
    simp [hasCol]

/-- C6: renaming applies the alias map by exact, case-sensitive match only,
and every unmapped column passes through with name and values unchanged. -/
theorem C6_rename_exact_match (df : DataFrame) :
    List.Forall₂ (fun c c' : Column =>
      c'.values = c.values ∧
      c'.name = (if c.name = "Day" then "Date" else if c.name = "Cost" then "Spend"
        else if c.name = "Total conv. value" then "Revenue" else c.name)) df (applyRename df) ∧
    applyRename [⟨"day", ["2025-01-01"]⟩] = [⟨"day", ["2025-01-01"]⟩] := by
  constructor
  · induction df with
    | nil => exact List.Forall₂.nil
    | cons c cs ih =>
      exact List.Forall₂.cons ⟨rfl, renameLabel_eq c.name⟩ ih
  · decide

theorem C6_witness : applyRename [⟨"day", ["2025-01-01"]⟩] = [⟨"day", ["2025-01-01"]⟩] :=
  (C6_rename_exact_match []).2

/-- C7: an Audience column is synthesized iff none exists after renaming;
synthesized values cover every row and come from the fixed label set. -/
theorem C7_audience_synthesis (pick : Nat → Fin 5) (df : DataFrame) :
    (hasCol df "Audience" = true → ensureAudience pick df = df) ∧
    (hasCol df "Audience" = false →
      ∃ vals, ensureAudience pick df = df ++ [⟨"Audience", vals⟩] ∧
        vals.length = nRows df ∧ ∀ v ∈ vals, v ∈ audiences) := by
  constructor
  · intro h; unfold ensureAudience; rw [if_pos h]
  · intro h
    unfold ensureAudience
    rw [if_neg (by rw [h]; simp)]
    refine ⟨_, rfl, by simp, ?_⟩
    intro v hv
    simp only [List.mem_map] at hv
    obtain ⟨i, _, rfl⟩ := hv
    exact audiences.get_mem _ _

theorem C7_witness :
    ∃ vals, ensureAudience pick0 c9df = c9df ++ [⟨"Audience", vals⟩] ∧
      vals.length = nRows c9df ∧ ∀ v ∈ vals, v ∈ audiences :=
  (C7_audience_synthesis pick0 c9df).2 (by decide)

/-- C10: the reported missing columns never include Audience and are always
a subset of the other four required names. -/
theorem C10_audience_never_missing (pick : Nat → Fin 5) (df : DataFrame) :
    "Audience" ∉ missing_cols (normalize pick df) ∧
    ∀ c ∈ missing_cols (normalize pick df), c ∈ ["Campaign", "Date", "Spend", "Revenue"] := by
  have hA : hasCol (normalize pick df) "Audience" = true :=
    hasCol_ensureAudience pick (applyRename df)
  constructor
  · intro hm
    rw [missing_cols, List.mem_filter] at hm
    rw [hA] at hm
    simp at hm
  · intro c hc
    rw [missing_cols, List.mem_filter] at hc
    obtain ⟨hmem, hnot⟩ := hc
    rw [req_cols] at hmem
    simp only [List.mem_cons, List.mem_singleton] at hmem
    rcases hmem with rfl | rfl | rfl | rfl | rfl | hmem
    · simp
    · simp
    · simp
    · simp
    · rw [hA] at hnot; simp at hnot
    · cases hmem

theorem C10_witness : "Audience" ∉ missing_cols (normalize pick0 c1df) :=
  (C10_audience_never_missing pick0 c1df).1

/-- List read with default at an in-bounds index is the indexed element. -/
theorem getD_of_lt {α : Type} (l : List α) (i : Nat) (d : α) (h : i < l.length) :
    l.getD i d = l.get ⟨i, h⟩ := by
  rw [List.getD_eq_getElem?_getD, List.getElem?_eq_getElem h]
  rfl

/-- Inserting a position that is smaller (original order) than everything
in a stably sorted list keeps the list stably sorted: the position lands
before every tied element. -/
theorem orderedInsert_stable (v : Nat → ℚ) (a : Nat) (out : List Nat)
    (hp : out.Pairwise (fun i j => v i < v j ∨ (v i = v j ∧ i < j)))
    (ha : ∀ x ∈ out, a < x) :
    (List.orderedInsert (ascLe v) a out).Pairwise
      (fun i j => v i < v j ∨ (v i = v j ∧ i < j)) := by
  induction out with
  | nil => simp
  | cons b rest ih =>
    rw [List.orderedInsert]
    by_cases hab : ascLe v a b
    · rw [if_pos hab]
      have hab' : v a ≤ v b := hab
      refine List.Pairwise.cons ?_ hp
      intro x hx
      rcases List.mem_cons.mp hx with rfl | hx2
      · rcases lt_or_eq_of_le hab' with h | h
        · exact Or.inl h
        · exact Or.inr ⟨h, ha x (by simp)⟩
      · have hbx := List.rel_of_pairwise_cons hp hx2
        rcases hbx with h | ⟨he, _⟩
        · exact Or.inl (lt_of_le_of_lt hab' h)
        · rcases lt_or_eq_of_le hab' with h2 | h2
          · exact Or.inl (he ▸ h2)
          · exact Or.inr ⟨h2.trans he, ha x (List.mem_cons_of_mem _ hx2)⟩
    · rw [if_neg hab]
      have hba : v b < v a := lt_of_not_le hab
      refine List.Pairwise.cons ?_ (ih hp.of_cons ?_)
      · intro y hy
        rcases (List.mem_orderedInsert (ascLe v)).mp hy with rfl | hy2
        · exact Or.inl hba
        · exact List.rel_of_pairwise_cons hp hy2
      · intro x hx
        exact ha x (List.mem_cons_of_mem _ hx)

/-- numpy's small-segment insertion sort is stable: on positions in
strictly increasing order it emits them sorted by key with ties kept in
position order. -/
theorem insertionSort_stable (v : Nat → ℚ) (l : List Nat) (h : l.Pairwise (· < ·)) :
    (List.insertionSort (ascLe v) l).Pairwise
      (fun i j => v i < v j ∨ (v i = v j ∧ i < j)) := by
  induction l with
  | nil => simp
  | cons a l ih =>
    rw [List.insertionSort]
    refine orderedInsert_stable v a _ (ih h.of_cons) ?_
    intro x hx
    rw [List.mem_insertionSort] at hx
    exact List.rel_of_pairwise_cons h hx

/-- On segments of at most 16 positions numpy's introsort is exactly its
insertion sort. -/
theorem aquicksort_small (v : Nat → ℚ) (t : List Nat) (depth fuel : Nat)
    (h : t.length ≤ 16) : aquicksort v t depth (fuel + 1) = insSortIdx v t := by
  rw [aquicksort]
  rw [if_pos h]


/-- Reading the reversed index array at an in-bounds position. -/
theorem revIdx_getD (n p : Nat) (hp : p < n) :
    ((List.range n).reverse).getD p 0 = n - 1 - p := by
  have h1 : p < ((List.range n).reverse).length := by simpa using hp
  rw [getD_of_lt _ _ _ h1, List.get_eq_getElem, List.getElem_reverse]
  simp

/-- Reading the reversed key array at an in-bounds position. -/
theorem revKeys_getD (keys : List ℚ) (p : Nat) (hp : p < keys.length) :
    keys.reverse.getD p 0 = keys.getD (keys.length - 1 - p) 0 := by
  have h1 : p < keys.reverse.length := by simpa using hp
  rw [getD_of_lt _ _ _ h1, List.get_eq_getElem, List.getElem_reverse]
  have h2 : keys.length - 1 - p < keys.length := by omega
  rw [getD_of_lt _ _ _ h2, List.get_eq_getElem]

/-- Mapping the range through the reversed index array reverses it. -/
theorem map_revIdx_range (n : Nat) :
    (List.range n).map (fun p => ((List.range n).reverse).getD p 0) =
      (List.range n).reverse := by
  apply List.ext_getElem
  · simp
  · intro i h1 h2
    simp only [List.getElem_map, List.getElem_range]
    have hi : i < ((List.range n).reverse).length := by simpa using h2
    rw [getD_of_lt _ _ _ hi, List.get_eq_getElem]

/-- For at most 16 keys, pandas' descending-quicksort argsort is exactly
the stable descending argsort: numpy takes the insertion-sort path, and
pandas' double reversal turns the stable ascending sort of the reversed
keys into a stable descending sort of the keys. -/
theorem nargsortDesc_small (keys : List ℚ) (h16 : keys.length ≤ 16) :
    nargsortDesc keys = argsortSpecDesc keys := by
  have hasc := aquicksort_small (fun i => keys.reverse.getD i 0) (List.range keys.length)
      (2 * msbFuel keys.length keys.length) keys.length (by simpa using h16)
  have hstep : nargsortDesc keys =
      ((List.insertionSort (ascLe (fun i => keys.reverse.getD i 0)) (List.range keys.length)).map
        (fun p => ((List.range keys.length).reverse).getD p 0)).reverse := by
    simp only [nargsortDesc]
    rw [hasc]
    rw [insSortIdx]
  have hperm0 : (List.insertionSort (ascLe (fun i => keys.reverse.getD i 0))
      (List.range keys.length)).Perm (List.range keys.length) := List.perm_insertionSort _ _
  have hmemlt : ∀ p ∈ List.insertionSort (ascLe (fun i => keys.reverse.getD i 0))
      (List.range keys.length), p < keys.length := fun p hp => List.mem_range.mp (hperm0.subset hp)
  have hstab := insertionSort_stable (fun i => keys.reverse.getD i 0)
    (List.range keys.length) (List.pairwise_lt_range keys.length)
  have hsortL : (((List.insertionSort (ascLe (fun i => keys.reverse.getD i 0))
      (List.range keys.length)).map
        (fun p => ((List.range keys.length).reverse).getD p 0)).reverse).Pairwise
      (descStable (fun i => keys.getD i 0)) := by
    rw [List.pairwise_reverse, List.pairwise_map]
    refine List.Pairwise.imp_of_mem ?_ hstab
    intro p q hpm hqm hrel
    have hpn : p < keys.length := hmemlt p hpm
    have hqn : q < keys.length := hmemlt q hqm
    rw [revIdx_getD _ p hpn, revIdx_getD _ q hqn, descStable]
    rcases hrel with h | ⟨he, hlt⟩
    · exact Or.inl (by
        rw [← revKeys_getD keys p hpn, ← revKeys_getD keys q hqn]
        exact h)
    · exact Or.inr ⟨by
        rw [← revKeys_getD keys q hqn, ← revKeys_getD keys p hpn]
        exact he.symm,
        Nat.sub_le_sub_left hlt.le (keys.length - 1)⟩
  have hpermL : (((List.insertionSort (ascLe (fun i => keys.reverse.getD i 0))
      (List.range keys.length)).map
        (fun p => ((List.range keys.length).reverse).getD p 0)).reverse).Perm
      (List.range keys.length) := by
    refine (List.reverse_perm _).trans ?_
    refine ((hperm0.map _).trans ?_)
    rw [map_revIdx_range]
    exact List.reverse_perm _
  have hsortR : (argsortSpecDesc keys).Pairwise (descStable (fun i => keys.getD i 0)) := by
    rw [argsortSpecDesc]
    exact List.sorted_insertionSort _ _
  have hpermR : (argsortSpecDesc keys).Perm (List.range keys.length) := List.perm_insertionSort _ _
  exact hstep.trans (List.eq_of_perm_of_sorted (hpermL.trans hpermR.symm) hsortL hsortR)

theorem deriveAll_forall₂ (raws : List RawRow) (rows : List DRow)
    (h : deriveAll raws = some rows) :
    List.Forall₂ (fun a r => deriveRow a = some r) raws rows := by
  induction raws generalizing rows with
  | nil =>
    rw [deriveAll, List.mapM_nil] at h
    injection h with h
    rw [← h]
    exact List.Forall₂.nil
  | cons a l ih =>
    rw [deriveAll, List.mapM_cons] at h
    cases hd : deriveRow a with
    | none => rw [hd] at h; simp at h
    | some x =>
      rw [hd] at h
      cases hl : l.mapM deriveRow with
      | none => rw [hl] at h; simp at h
      | some xs =>
        rw [hl] at h
        simp only [Option.bind_some, Option.map_some, Option.pure_def] at h
        injection h with h
        rw [← h]
        exact List.Forall₂.cons hd (ih xs hl)

theorem deriveRow_fields (a : RawRow) (r : DRow) (h : deriveRow a = some r) :
    r.campaign = a.campaign ∧ r.spend = a.spend ∧ r.revenue = a.revenue ∧
      r.roas = a.revenue / a.spend ∧ r.audience = a.audience := by
  rw [deriveRow] at h
  cases hp : parseDate a.dateStr with
  | none => rw [hp] at h; simp at h
  | some d =>
    rw [hp] at h
    simp only [Option.map_some'] at h
    injection h with h
    rw [← h]
    exact ⟨rfl, rfl, rfl, rfl, rfl⟩

theorem derived_roas (raws : List RawRow) (rows : List DRow)
    (h : deriveAll raws = some rows) :
    ∀ r ∈ rows, r.roas = r.revenue / r.spend := by
  have h2 := deriveAll_forall₂ raws rows h
  clear h
  induction h2 with
  | nil => intro r hr; cases hr
  | cons ha hl ihl =>
    intro r hr
    rcases List.mem_cons.mp hr with rfl | hr2
    · obtain ⟨_, hsp, hrev, hro, _⟩ := deriveRow_fields _ _ ha
      rw [hro, hsp, hrev]
    · exact ihl r hr2

/-- A value occurring in a column occurs among the sorted distinct group
keys pandas produces for it. -/
theorem mem_sortedKeys (ks : List String) (c : String) (h : c ∈ ks) :
    c ∈ sortedKeys ks := by
  rw [sortedKeys, List.mem_insertionSort, List.mem_dedup]
  exact h

section
attribute [local semireducible] Rat.mul Rat.inv Rat.add

/-- C2: the leaderboard grouping has, for each campaign of the dataset, one
entry holding the arithmetic means of Spend, of Revenue and of the per-row
revenue/spend ratios; on the spec's example campaign A gets mean ROAS 5/2
(the mean of 3 and 2), campaign B gets 1, and A's value is not the
ratio-of-sums 400/150. -/
theorem C2_leaderboard_means (raws : List RawRow) (rows : List DRow)
    (hd : deriveAll raws = some rows) (_hs : ∀ a ∈ raws, a.spend ≠ 0) :
    (∀ c ∈ rows.map (fun r => r.campaign),
      (c, ((rows.filter (fun r => r.campaign == c)).map (fun r => r.spend)).sum /
            (((rows.filter (fun r => r.campaign == c)).length : ℚ)),
          ((rows.filter (fun r => r.campaign == c)).map (fun r => r.revenue)).sum /
            (((rows.filter (fun r => r.campaign == c)).length : ℚ)),
          ((rows.filter (fun r => r.campaign == c)).map (fun r => r.revenue / r.spend)).sum /
            (((rows.filter (fun r => r.campaign == c)).length : ℚ))) ∈ ranking_grouped rows) ∧
    (deriveAll c2raws).map ranking_grouped =
      some [("A", 75, 200, 5/2), ("B", 200, 200, 1)] ∧
    (5 / 2 : ℚ) ≠ (300 + 100) / (100 + 50) := by
  refine ⟨?_, by decide, by decide⟩
  intro c hc
  have hmem : c ∈ sortedKeys (rows.map (fun r => r.campaign)) := mem_sortedKeys _ c hc
  have himg := List.mem_map_of_mem (f := fun c =>
    (c, ((rows.filter (fun r => r.campaign == c)).map (fun r => r.spend)).sum /
          (((rows.filter (fun r => r.campaign == c)).length : ℚ)),
        ((rows.filter (fun r => r.campaign == c)).map (fun r => r.revenue)).sum /
          (((rows.filter (fun r => r.campaign == c)).length : ℚ)),
        ((rows.filter (fun r => r.campaign == c)).map (fun r => r.roas)).sum /
          (((rows.filter (fun r => r.campaign == c)).length : ℚ)))) hmem
  have hroasmap : ((rows.filter (fun r => r.campaign == c)).map (fun r => r.roas)) =
      ((rows.filter (fun r => r.campaign == c)).map (fun r => r.revenue / r.spend)) := by
    refine List.map_congr_left ?_
    intro r hr
    exact derived_roas raws rows hd r (List.mem_of_mem_filter hr)
  rw [← hroasmap]
  simpa [ranking_grouped] using himg

theorem C2_witness :
    ("A", (75 : ℚ), (200 : ℚ), (5/2 : ℚ)) ∈ ranking_grouped ((deriveAll c2raws).getD []) := by
  have hd : deriveAll c2raws = some ((deriveAll c2raws).getD []) := by decide
  have h := (C2_leaderboard_means c2raws _ hd (by decide)).1 "A" (by decide)
  have he : ("A", (75 : ℚ), (200 : ℚ), (5/2 : ℚ)) =
      ("A", ((((deriveAll c2raws).getD []).filter (fun r => r.campaign == "A")).map (fun r => r.spend)).sum /
            (((((deriveAll c2raws).getD []).filter (fun r => r.campaign == "A")).length : ℚ)),
          ((((deriveAll c2raws).getD []).filter (fun r => r.campaign == "A")).map (fun r => r.revenue)).sum /
            (((((deriveAll c2raws).getD []).filter (fun r => r.campaign == "A")).length : ℚ)),
          ((((deriveAll c2raws).getD []).filter (fun r => r.campaign == "A")).map (fun r => r.revenue / r.spend)).sum /
            (((((deriveAll c2raws).getD []).filter (fun r => r.campaign == "A")).length : ℚ))) := by
    decide
  rw [he]
  exact h

end

section
attribute [local semireducible] Rat.mul Rat.inv Rat.add

/-- C8 (amended): the heatmap aggregate has one entry per distinct
`(Day, Campaign)` pair with the summed revenue, its rows ordered by the
alphabetical lexicographic group-key order pandas produces (independent of
the input row order); the canonical Monday-to-Sunday axis order is the
separate `days_order` directive handed to the chart. -/
theorem C8_heatmap_grouping (rows : List DRow) :
    List.Pairwise (fun a b : String × String × ℚ =>
      dayCampLe (a.1, a.2.1) (b.1, b.2.1)) (heat_data rows) ∧
    (∀ p ∈ rows.map (fun r => (r.day, r.campaign)),
      (p.1, p.2, ((rows.filter (fun r => r.day == p.1 && r.campaign == p.2)).map
        (fun r => r.revenue)).sum) ∈ heat_data rows) ∧
    days_order = ["Monday", "Tuesday", "Wednesday", "Thursday", "Friday", "Saturday", "Sunday"] := by
  refine ⟨?_, ?_, rfl⟩
  · rw [heat_data, List.pairwise_map]
    exact List.sorted_insertionSort dayCampLe _
  · intro p hp
    have h1 : p ∈ List.insertionSort dayCampLe (rows.map (fun r => (r.day, r.campaign))).dedup := by
      rw [List.mem_insertionSort, List.mem_dedup]
      exact hp
    have h2 := List.mem_map_of_mem (f := fun k : String × String => (k.1, k.2,
      ((rows.filter (fun r => r.day == k.1 && r.campaign == k.2)).map (fun r => r.revenue)).sum)) h1
    exact h2

/-- C8 counterexample: on a dataset with a Friday row and a Monday row the
aggregate handed to the chart lists Friday first (alphabetical order), so
its Day dimension is not in canonical Monday-to-Sunday order. -/
theorem C8_canonical_order_counterexample :
    (deriveAll c8raws).isSome = true ∧
    heat_data ((deriveAll c8raws).getD []) =
      [("Friday", "CampA", 10), ("Monday", "CampA", 20)] ∧
    ¬ List.Pairwise (fun a b : String × String × ℚ =>
        days_order.indexOf a.1 ≤ days_order.indexOf b.1)
      (heat_data ((deriveAll c8raws).getD [])) :=
  ⟨by decide, by decide, by decide⟩

theorem C8_witness :
    ("Friday", "CampA", (10 : ℚ)) ∈ heat_data ((deriveAll c8raws).getD []) := by
  have h := (C8_heatmap_grouping ((deriveAll c8raws).getD [])).2.1
    ("Friday", "CampA") (by decide)
  have he : ("Friday", "CampA", (10 : ℚ)) =
      (("Friday", "CampA").1, ("Friday", "CampA").2,
        ((((deriveAll c8raws).getD []).filter (fun r =>
          r.day == ("Friday", "CampA").1 && r.campaign == ("Friday", "CampA").2)).map
          (fun r => r.revenue)).sum) := by decide
  rw [he]
  exact h

end

/-- Reading the ROAS column of the grouped table at an in-bounds index. -/
theorem roas_col_getD (tbl : List (String × ℚ × ℚ × ℚ)) (i : Nat) (hi : i < tbl.length) :
    (tbl.map (fun e => e.2.2.2)).getD i 0 = (tbl.getD i ("", 0, 0, 0)).2.2.2 := by
  have h1 : i < (tbl.map (fun e => e.2.2.2)).length := by simpa using hi
  rw [getD_of_lt _ _ _ h1, getD_of_lt _ _ _ hi, List.get_eq_getElem, List.get_eq_getElem,
    List.getElem_map]

section
attribute [local semireducible] Rat.mul Rat.inv Rat.add

/-- C3 (amended): when the grouped leaderboard has at most 16 rows (and no
zero-Spend row makes ROAS infinite in the float source), the sort is the
stable descending argsort of the mean-ROAS column, so the table is ordered
by descending mean ROAS with ties kept in grouped order; with 17 or more
rows numpy's quicksort partition path gives no such guarantee. -/
theorem C3_leaderboard_sort_small (raws : List RawRow) (rows : List DRow)
    (_hd : deriveAll raws = some rows) (_hs : ∀ a ∈ raws, a.spend ≠ 0)
    (hn : (ranking_grouped rows).length ≤ 16) :
    ranking rows =
      (argsortSpecDesc ((ranking_grouped rows).map (fun e => e.2.2.2))).map
        (fun i => (ranking_grouped rows).getD i ("", 0, 0, 0)) ∧
    List.Pairwise (fun a b : String × ℚ × ℚ × ℚ => b.2.2.2 ≤ a.2.2.2) (ranking rows) := by
  have hkl : ((ranking_grouped rows).map (fun e => e.2.2.2)).length ≤ 16 := by simpa using hn
  have h1 : ranking rows =
      (argsortSpecDesc ((ranking_grouped rows).map (fun e => e.2.2.2))).map
        (fun i => (ranking_grouped rows).getD i ("", 0, 0, 0)) := by
    simp only [ranking]
    rw [nargsortDesc_small _ hkl]
  refine ⟨h1, ?_⟩
  rw [h1, List.pairwise_map]
  have hsorted : (argsortSpecDesc ((ranking_grouped rows).map (fun e => e.2.2.2))).Pairwise
      (descStable (fun i => ((ranking_grouped rows).map (fun e => e.2.2.2)).getD i 0)) := by
    rw [argsortSpecDesc]
    exact List.sorted_insertionSort _ _
  have hperm : (argsortSpecDesc ((ranking_grouped rows).map (fun e => e.2.2.2))).Perm
      (List.range ((ranking_grouped rows).map (fun e => e.2.2.2)).length) :=
    List.perm_insertionSort _ _
  refine List.Pairwise.imp_of_mem ?_ hsorted
  intro i j him hjm hrel
  have hin : i < (ranking_grouped rows).length := by
    have h2 := List.mem_range.mp (hperm.subset him)
    simpa using h2
  have hjn : j < (ranking_grouped rows).length := by
    have h2 := List.mem_range.mp (hperm.subset hjm)
    simpa using h2
  have hle : ((ranking_grouped rows).map (fun e => e.2.2.2)).getD j 0 ≤
      ((ranking_grouped rows).map (fun e => e.2.2.2)).getD i 0 := by
    rcases hrel with h | ⟨he, _⟩
    · exact le_of_lt h
    · exact le_of_eq he.symm
  rw [roas_col_getD _ i hin, roas_col_getD _ j hjn] at hle
  exact hle

/-- C3 counterexample: seventeen campaigns all with mean ROAS 2 are fully
tied, so a stable (or even any deterministic order-preserving) descending
sort would return the grouped table unchanged; the modelled
quicksort-backed `sort_values` returns it reordered. -/
theorem C3_stable_sort_counterexample :
    (deriveAll c3raws).isSome = true ∧
    (∀ e ∈ ranking_grouped ((deriveAll c3raws).getD []), e.2.2.2 = 2) ∧
    ranking ((deriveAll c3raws).getD []) ≠ ranking_grouped ((deriveAll c3raws).getD []) :=
  ⟨by decide, by decide, by decide⟩

theorem C3_witness :
    ranking ((deriveAll c2raws).getD []) =
      (argsortSpecDesc ((ranking_grouped ((deriveAll c2raws).getD [])).map (fun e => e.2.2.2))).map
        (fun i => (ranking_grouped ((deriveAll c2raws).getD [])).getD i ("", 0, 0, 0)) :=
  (C3_leaderboard_sort_small c2raws ((deriveAll c2raws).getD []) (by decide) (by decide)
    (by decide)).1

end

/-- Row derivation does not read the Audience value: two raw rows agreeing
elsewhere derive together, to rows agreeing elsewhere. -/
theorem deriveRow_congr {a b : RawRow} (hab : agreeRaw a b) :
    (deriveRow a = none ∧ deriveRow b = none) ∨
      ∃ x y, deriveRow a = some x ∧ deriveRow b = some y ∧ agreeD x y := by
  obtain ⟨hc, hdt, hsp, hrv⟩ := hab
  rw [deriveRow, deriveRow, hdt]
  cases hp : parseDate b.dateStr with
  | none => exact Or.inl ⟨rfl, rfl⟩
  | some d =>
    refine Or.inr ⟨_, _, rfl, rfl, ?_⟩
    exact ⟨hc, rfl, rfl, hsp, hrv, by rw [hsp, hrv]⟩

/-- Dataset derivation lifted to two agreeing datasets: both fail together
or both succeed with pointwise agreeing rows. -/
theorem deriveAll_congr {l₁ l₂ : List RawRow} (h : List.Forall₂ agreeRaw l₁ l₂) :
    (deriveAll l₁ = none ∧ deriveAll l₂ = none) ∨
      ∃ m₁ m₂, deriveAll l₁ = some m₁ ∧ deriveAll l₂ = some m₂ ∧
        List.Forall₂ agreeD m₁ m₂ := by
  induction h with
  | nil => exact Or.inr ⟨[], [], rfl, rfl, List.Forall₂.nil⟩
  | @cons a b l₁t l₂t hab htail ih =>
    rw [deriveAll, List.mapM_cons, deriveAll, List.mapM_cons]
    rcases deriveRow_congr hab with ⟨ha, hb⟩ | ⟨x, y, hx, hy, hxy⟩
    · rw [ha, hb]
      exact Or.inl ⟨rfl, rfl⟩
    · rw [hx, hy]
      rcases ih with ⟨ha2, hb2⟩ | ⟨m₁, m₂, hm₁, hm₂, hmm⟩
      · rw [deriveAll] at ha2 hb2
        rw [ha2, hb2]
        exact Or.inl ⟨rfl, rfl⟩
      · rw [deriveAll] at hm₁ hm₂
        rw [hm₁, hm₂]
        exact Or.inr ⟨x :: m₁, y :: m₂, rfl, rfl, List.Forall₂.cons hxy hmm⟩

/-- Maps that do not read the Audience value agree on agreeing datasets. -/
theorem map_congr_forall₂ {α : Type} {m₁ m₂ : List DRow} (h : List.Forall₂ agreeD m₁ m₂)
    (f : DRow → α) (hf : ∀ x y, agreeD x y → f x = f y) : m₁.map f = m₂.map f := by
  induction h with
  | nil => rfl
  | cons hxy ht ih => simp only [List.map_cons, hf _ _ hxy, ih]

/-- Filters that do not read the Audience value preserve agreement. -/
theorem filter_congr_forall₂ {m₁ m₂ : List DRow} (h : List.Forall₂ agreeD m₁ m₂)
    (p : DRow → Bool) (hp : ∀ x y, agreeD x y → p x = p y) :
    List.Forall₂ agreeD (m₁.filter p) (m₂.filter p) := by
  induction h with
  | nil => exact List.Forall₂.nil
  | @cons x y t₁ t₂ hxy ht ih =>
    rw [List.filter_cons, List.filter_cons, ← hp _ _ hxy]
    by_cases hpx : p x = true
    · rw [if_pos hpx, if_pos hpx]
      exact List.Forall₂.cons hxy ih
    · rw [if_neg hpx, if_neg hpx]
      exact ih

theorem total_spend_congr {m₁ m₂ : List DRow} (h : List.Forall₂ agreeD m₁ m₂) :
    total_spend m₁ = total_spend m₂ := by
  rw [total_spend, total_spend, map_congr_forall₂ h _ (fun x y hxy => hxy.2.2.2.1)]

theorem total_rev_congr {m₁ m₂ : List DRow} (h : List.Forall₂ agreeD m₁ m₂) :
    total_rev m₁ = total_rev m₂ := by
  rw [total_rev, total_rev, map_congr_forall₂ h _ (fun x y hxy => hxy.2.2.2.2.1)]

theorem total_roas_congr {m₁ m₂ : List DRow} (h : List.Forall₂ agreeD m₁ m₂) :
    total_roas m₁ = total_roas m₂ := by
  rw [total_roas, total_roas, total_spend_congr h, total_rev_congr h]

theorem heat_data_congr {m₁ m₂ : List DRow} (h : List.Forall₂ agreeD m₁ m₂) :
    heat_data m₁ = heat_data m₂ := by
  have hpairs : m₁.map (fun r => (r.day, r.campaign)) = m₂.map (fun r => (r.day, r.campaign)) :=
    map_congr_forall₂ h _ (fun x y hxy => by
      show (x.day, x.campaign) = (y.day, y.campaign)
      rw [hxy.2.2.1, hxy.1])
  rw [heat_data, heat_data, hpairs]
  refine List.map_congr_left ?_
  intro k hk
  have hf := filter_congr_forall₂ h (fun r => r.day == k.1 && r.campaign == k.2)
    (fun x y hxy => by
      show (x.day == k.1 && x.campaign == k.2) = (y.day == k.1 && y.campaign == k.2)
      rw [hxy.2.2.1, hxy.1])
  rw [map_congr_forall₂ hf _ (fun x y hxy => hxy.2.2.2.2.1)]

theorem ranking_grouped_congr {m₁ m₂ : List DRow} (h : List.Forall₂ agreeD m₁ m₂) :
    ranking_grouped m₁ = ranking_grouped m₂ := by
  have hkeys : m₁.map (fun r => r.campaign) = m₂.map (fun r => r.campaign) :=
    map_congr_forall₂ h _ (fun x y hxy => hxy.1)
  rw [ranking_grouped, ranking_grouped, hkeys]
  refine List.map_congr_left ?_
  intro c hc
  have hf := filter_congr_forall₂ h (fun r => r.campaign == c) (fun x y hxy => by
    show (x.campaign == c) = (y.campaign == c)
    rw [hxy.1])
  dsimp only
  rw [map_congr_forall₂ hf _ (fun x y hxy => hxy.2.2.2.1),
    map_congr_forall₂ hf _ (fun x y hxy => hxy.2.2.2.2.1),
    map_congr_forall₂ hf _ (fun x y hxy => hxy.2.2.2.2.2),
    hf.length_eq]

theorem ranking_congr {m₁ m₂ : List DRow} (h : List.Forall₂ agreeD m₁ m₂) :
    ranking m₁ = ranking m₂ := by
  rw [ranking, ranking, ranking_grouped_congr h]

/-- Rows built from the same key columns and two audience columns of equal
length agree on everything but Audience. -/
theorem buildRows_forall₂ : ∀ (cs ds : List String) (ss rs : List ℚ) (a₁ a₂ : List String),
    a₁.length = a₂.length →
    List.Forall₂ agreeRaw (buildRows cs ds ss rs a₁) (buildRows cs ds ss rs a₂)
  | [], _, _, _, _, _, _ => List.Forall₂.nil
  | _ :: _, [], _, _, _, _, _ => List.Forall₂.nil
  | _ :: _, _ :: _, [], _, _, _, _ => List.Forall₂.nil
  | _ :: _, _ :: _, _ :: _, [], _, _, _ => List.Forall₂.nil
  | _ :: _, _ :: _, _ :: _, _ :: _, [], [], _ => List.Forall₂.nil
  | c :: cs, d :: ds, s :: ss, r :: rs, a :: as₁, b :: as₂, hlen =>
    List.Forall₂.cons ⟨rfl, rfl, rfl, rfl⟩
      (buildRows_forall₂ cs ds ss rs as₁ as₂ (by simpa using hlen))
  | _ :: _, _ :: _, _ :: _, _ :: _, [], _ :: _, hlen => by simp at hlen
  | _ :: _, _ :: _, _ :: _, _ :: _, _ :: _, [], hlen => by simp at hlen

/-- Appending a column with a different label does not change a lookup. -/
theorem colVals_append_single (df : DataFrame) (col : Column) (n : String)
    (hne : ¬ col.name = n) : colVals (df ++ [col]) n = colVals df n := by
  rw [colVals, colVals, List.find?_append]
  cases hf : df.find? (fun c => c.name == n) with
  | some c => rfl
  | none =>
    have h2 : List.find? (fun c => c.name == n) [col] = none := by
      rw [List.find?_cons_of_neg]
      · rfl
      · simp [hne]
    rw [h2]
    rfl

/-- Looking up the appended Audience column when none was present. -/
theorem colVals_append_audience (df : DataFrame) (vals : List String)
    (h : hasCol df "Audience" = false) :
    colVals (df ++ [⟨"Audience", vals⟩]) "Audience" = some vals := by
  rw [colVals, List.find?_append]
  have hf : df.find? (fun c => c.name == "Audience") = none := by
    rw [List.find?_eq_none]
    intro c hc
    rw [hasCol] at h
    exact List.any_eq_false.mp h c hc
  rw [hf]
  rfl

/-- `toRows` on a dataset with a freshly appended Audience column, written
with the original columns looked up in the un-appended dataset. -/
theorem toRows_append_audience (A : DataFrame) (v : List String)
    (h : hasCol A "Audience" = false) :
    toRows (A ++ [⟨"Audience", v⟩]) =
      (colVals A "Campaign").bind (fun cs =>
      (colVals A "Date").bind (fun ds =>
      (colVals A "Spend").bind (fun ss0 =>
      (colVals A "Revenue").bind (fun rs0 =>
      (ss0.mapM parseNum).bind (fun ss =>
      (rs0.mapM parseNum).bind (fun rs =>
      some (buildRows cs ds ss rs v))))))) := by
  rw [toRows]
  rw [colVals_append_single A _ "Campaign" (by simp),
    colVals_append_single A _ "Date" (by simp),
    colVals_append_single A _ "Spend" (by simp),
    colVals_append_single A _ "Revenue" (by simp),
    colVals_append_audience A v h]
  rfl

/-- Audience-agreeing raw datasets give the same audience-independent
outputs through derivation and the views. -/
theorem derive_tail_congr {r₁ r₂ : List RawRow} (h : List.Forall₂ agreeRaw r₁ r₂) :
    (match deriveAll r₁ with
      | none => Except.error (AppError.processing "unparseable dates")
      | some rows => Except.ok (mkOutput rows)).map nonAudienceView =
    (match deriveAll r₂ with
      | none => Except.error (AppError.processing "unparseable dates")
      | some rows => Except.ok (mkOutput rows)).map nonAudienceView := by
  rcases deriveAll_congr h with ⟨hn₁, hn₂⟩ | ⟨m₁, m₂, hs₁, hs₂, hmm⟩
  · rw [hn₁, hn₂]
  · rw [hs₁, hs₂]
    dsimp only [Except.map, nonAudienceView, mkOutput]
    simp only [Except.ok.injEq, Prod.mk.injEq]
    refine ⟨total_spend_congr hmm, total_rev_congr hmm, total_roas_congr hmm,
      ?_, heat_data_congr hmm, ranking_congr hmm⟩
    exact map_congr_forall₂ hmm _ (fun x y hxy => by
      show (x.roas, x.day) = (y.roas, y.day)
      rw [hxy.2.2.2.2.2, hxy.2.2.1])

/-- Two synthesized Audience columns of equal length leave every
audience-independent output of the checked pipeline unchanged. -/
theorem processChecked_audience_congr (A : DataFrame) (v₁ v₂ : List String)
    (hlen : v₁.length = v₂.length) (hA : hasCol A "Audience" = false) :
    (processChecked (A ++ [⟨"Audience", v₁⟩])).map nonAudienceView =
      (processChecked (A ++ [⟨"Audience", v₂⟩])).map nonAudienceView := by
  have hmc : missing_cols (A ++ [⟨"Audience", v₁⟩]) = missing_cols (A ++ [⟨"Audience", v₂⟩]) := by
    rw [missing_cols, missing_cols]
    refine List.filter_congr ?_
    intro c hc
    rw [hasCol, hasCol, List.any_append, List.any_append]
    simp [List.any_cons]
  rw [processChecked, processChecked, ← hmc]
  by_cases hm : (missing_cols (A ++ [⟨"Audience", v₁⟩])).isEmpty = true
  · rw [if_pos hm, if_pos hm]
    rw [toRows_append_audience A v₁ hA, toRows_append_audience A v₂ hA]
    cases h1 : colVals A "Campaign" with
    | none => rfl
    | some cs =>
    cases h2 : colVals A "Date" with
    | none => rfl
    | some ds =>
    cases h3 : colVals A "Spend" with
    | none => rfl
    | some ss0 =>
    cases h4 : colVals A "Revenue" with
    | none => rfl
    | some rs0 =>
    simp only [Option.some_bind]
    cases h5 : ss0.mapM parseNum with
    | none => rfl
    | some ss =>
    cases h6 : rs0.mapM parseNum with
    | none => rfl
    | some rs =>
    exact derive_tail_congr (buildRows_forall₂ cs ds ss rs v₁ v₂ hlen)
  · rw [if_neg hm, if_neg hm]

/-- C9: for an upload without an Audience column, any two assignments of
synthesized audience labels produce identical KPIs, per-row ROAS and Day
values, heatmap aggregate and leaderboard; only the audience-segment
breakdown can differ. -/
theorem C9_synthesis_noninterference (df : DataFrame) (pick₁ pick₂ : Nat → Fin 5)
    (h : hasCol (applyRename df) "Audience" = false) :
    (process pick₁ df).map nonAudienceView = (process pick₂ df).map nonAudienceView := by
  have hnorm : ∀ pick : Nat → Fin 5, normalize pick df = applyRename df ++
      [⟨"Audience", (List.range (nRows (applyRename df))).map
        (fun i => audiences.get ⟨(pick i).val, (pick i).isLt⟩)⟩] := by
    intro pick
    rw [normalize, ensureAudience, if_neg]
    rw [h]
    exact Bool.false_ne_true
  rw [process, process, hnorm pick₁, hnorm pick₂]
  exact processChecked_audience_congr _ _ _ (by simp) h

theorem C9_witness :
    (process pick0 c9df).map nonAudienceView = (process pick3 c9df).map nonAudienceView :=
  C9_synthesis_noninterference c9df pick0 pick3 (by decide)

section
attribute [local semireducible] Rat.mul Rat.inv Rat.add

/-- C4: the dataset-level aggregate ROAS is the revenue/spend ratio when
total spend is positive and the guarded value 0 when total spend is zero
(in particular on the empty dataset); in ℚ it is total, so it never raises
and never yields an infinity. -/
theorem C4_aggregate_roas_guard (rows : List DRow) :
    (0 < total_spend rows → total_roas rows = total_rev rows / total_spend rows) ∧
    (total_spend rows = 0 → total_roas rows = 0) ∧
    total_roas [] = 0 := by
  refine ⟨fun h => ?_, fun h => ?_, ?_⟩
  · rw [total_roas, if_pos h]
  · rw [total_roas, if_neg (by rw [h]; exact lt_irrefl 0)]
  · rfl

theorem C4_witness :
    total_roas [d1] = total_rev [d1] / total_spend [d1] ∧ total_roas [] = 0 :=
  ⟨(C4_aggregate_roas_guard [d1]).1 (by decide), (C4_aggregate_roas_guard []).2.2⟩

/-- C5: ambiguous numeric dates parse day-first ("03/04/2025" is 3 April
2025), and on the spec's one-row example the pipeline yields the date
1 February 2025, Day "Saturday", row ROAS 2, total spend 100, total
revenue 200 and aggregate ROAS 2. -/
theorem C5_dayfirst_end_to_end :
    parseDate "03/04/2025" = some ⟨2025, 4, 3⟩ ∧
    (process pick0 c5df).map (·.total_spend) = .ok 100 ∧
    (process pick0 c5df).map (·.total_rev) = .ok 200 ∧
    (process pick0 c5df).map (·.total_roas) = .ok 2 ∧
    (process pick0 c5df).map (fun o => o.scatter.map (fun r => (r.date, r.day, r.roas))) =
      .ok [(⟨2025, 2, 1⟩, "Saturday", 2)] := by
  refine ⟨by decide, by decide, by decide, by decide, by decide⟩

/-- C1: after renaming and synthesis the missing-columns error is raised
iff some required column is absent; when raised it carries exactly the
ordered list of absent required names; an upload lacking only Revenue
yields exactly ["Revenue"]. -/
theorem C1_missing_columns_error (pick : Nat → Fin 5) (df : DataFrame) :
    ((∃ e, process pick df = .error (.missingCols e)) ↔
      ∃ c ∈ req_cols, hasCol (normalize pick df) c = false) ∧
    (∀ e, process pick df = .error (.missingCols e) →
      e = req_cols.filter (fun c => !(hasCol (normalize pick df) c)) ∧ e ≠ []) ∧
    process pick0 c1df = .error (.missingCols ["Revenue"]) := by
  have hme : (missing_cols (normalize pick df) = []) ↔
      ¬ ∃ c ∈ req_cols, hasCol (normalize pick df) c = false := by
    rw [missing_cols, List.filter_eq_nil_iff]
    constructor
    · intro h ⟨c, hc, hfalse⟩
      exact (h c hc) (by rw [hfalse]; rfl)
    · intro h c hc hb
      refine absurd ⟨c, hc, ?_⟩ h
      revert hb
      cases hasCol (normalize pick df) c <;> simp
  by_cases h : (missing_cols (normalize pick df)).isEmpty = true
  · have hnil : missing_cols (normalize pick df) = [] := by
      rwa [List.isEmpty_iff] at h
    have hproc : ∀ e, process pick df ≠ .error (.missingCols e) := by
      intro e
      rw [process, processChecked]
      simp only [h, if_true]
      cases htr : toRows (normalize pick df) with
      | none => simp
      | some raws =>
        cases hda : deriveAll raws with
        | none => simp [hda]
        | some rows => simp [hda]
    refine ⟨⟨fun ⟨e, he⟩ => absurd he (hproc e), fun hex => absurd hex (hme.mp hnil)⟩,
      fun e he => absurd he (hproc e), by decide⟩
  · have hnil : missing_cols (normalize pick df) ≠ [] := by
      intro hn; rw [hn] at h; exact h rfl
    have hproc : process pick df = .error (.missingCols (missing_cols (normalize pick df))) := by
      rw [process, processChecked]
      simp only [h]
      rw [if_neg Bool.false_ne_true]
    refine ⟨⟨fun _ => ?_, fun _ => ⟨_, hproc⟩⟩, fun e he => ?_, by decide⟩
    · by_contra hex
      exact hnil (hme.mpr hex)
    · rw [hproc] at he
      injection he with he2
      injection he2 with he3
      exact ⟨he3.symm ▸ rfl, he3.symm ▸ hnil⟩

theorem C1_witness : ∃ e, process pick0 c1df = .error (.missingCols e) :=
  (C1_missing_columns_error pick0 c1df).1.mpr ⟨"Revenue", by decide, by decide⟩

end

end MCA
